import Mathlib

/-!
Verification of the dense-CRF post-processing core of deeplab-pytorch.

The harness file `demo.py` builds a `DenseCRF` post-processor and feeds it
into `inference`; the CRF engine itself (unary adapter, Gaussian pairwise
kernels, approximate filtering, mean-field solver) lives outside the visible
source and is modelled here from the specification.  Pixel grids are indexed
by `Fin (H+1) × Fin (W+1)` and class channels by `Fin (C+1)`, so the shape
constraints C ≥ 1, H ≥ 1, W ≥ 1 of the data model hold by construction.
Floating-point arithmetic is modelled by exact real arithmetic.
-/

namespace DenseCRF

/-- Embedding of `np.argmax` along one axis: returns the index of the
maximal entry, ties broken by the lowest index (first occurrence), exactly
as `numpy` scans.  Defined by recursion on the (nonempty) index range. -/
def npArgmax {α : Type} [LinearOrder α] : {n : ℕ} → (Fin (n + 1) → α) → Fin (n + 1)
  | 0, _ => 0
  | _ + 1, f =>
    let j := npArgmax (fun i => f i.succ)
    if f 0 < f j.succ then j.succ else 0

/-- The value at `npArgmax` dominates every entry. -/
lemma le_f_npArgmax {α : Type} [LinearOrder α] :
    ∀ {n : ℕ} (f : Fin (n + 1) → α) (i : Fin (n + 1)), f i ≤ f (npArgmax f)
  | 0, f, i => by
    have hi : i = 0 := Fin.fin_one_eq_zero i
    have h0 : npArgmax f = 0 := rfl
    rw [hi, h0]
  | n + 1, f, i => by
    show f i ≤ f (if f 0 < f (npArgmax (fun i => f i.succ)).succ
      then (npArgmax (fun i => f i.succ)).succ else 0)
    by_cases h : f 0 < f (npArgmax (fun i => f i.succ)).succ
    · rw [if_pos h]
      rcases Fin.eq_zero_or_eq_succ i with h0 | ⟨i', rfl⟩
      · rw [h0]; exact le_of_lt h
      · exact le_f_npArgmax (fun i => f i.succ) i'
    · rw [if_neg h]
      push_neg at h
      rcases Fin.eq_zero_or_eq_succ i with h0 | ⟨i', rfl⟩
      · rw [h0]
      · exact le_trans (le_f_npArgmax (fun i => f i.succ) i') h

/-- Every entry strictly before `npArgmax` is strictly below the maximum:
the first occurrence of the maximum is returned. -/
lemma lt_f_of_lt_npArgmax {α : Type} [LinearOrder α] :
    ∀ {n : ℕ} (f : Fin (n + 1) → α) (i : Fin (n + 1)),
      i < npArgmax f → f i < f (npArgmax f)
  | 0, f, i, hi => by
    have h0 : npArgmax f = 0 := rfl
    rw [h0] at hi
    exact absurd hi (Fin.not_lt_zero i)
  | n + 1, f, i, hi => by
    revert hi
    show i < (if f 0 < f (npArgmax (fun i => f i.succ)).succ
        then (npArgmax (fun i => f i.succ)).succ else 0) →
      f i < f (if f 0 < f (npArgmax (fun i => f i.succ)).succ
        then (npArgmax (fun i => f i.succ)).succ else 0)
    by_cases h : f 0 < f (npArgmax (fun i => f i.succ)).succ
    · rw [if_pos h]
      intro hi
      rcases Fin.eq_zero_or_eq_succ i with h0 | ⟨i', rfl⟩
      · rw [h0]; exact h
      · have hlt : i' < npArgmax (fun i => f i.succ) := by
          rwa [Fin.succ_lt_succ_iff] at hi
        exact lt_f_of_lt_npArgmax (fun i => f i.succ) i' hlt
    · rw [if_neg h]
      intro hi
      exact absurd hi (Fin.not_lt_zero i)

/-- Uniqueness: an index that dominates all entries and strictly dominates
all earlier entries is the `npArgmax`. -/
lemma npArgmax_eq {α : Type} [LinearOrder α] {n : ℕ} (f : Fin (n + 1) → α)
    (j : Fin (n + 1)) (hle : ∀ i, f i ≤ f j) (hlt : ∀ i, i < j → f i < f j) :
    npArgmax f = j := by
  rcases lt_trichotomy (npArgmax f) j with h | h | h
  · exact absurd (lt_of_lt_of_le (hlt _ h) (le_f_npArgmax f j)) (lt_irrefl _)
  · exact h
  · exact absurd (lt_of_lt_of_le (lt_f_of_lt_npArgmax f j h) (hle _)) (lt_irrefl _)

/-- A pixel grid of height `H+1` and width `W+1` (the data model requires
`H, W ≥ 1`). -/
abbrev Pix (H W : ℕ) := Fin (H + 1) × Fin (W + 1)

/-- A 1×1 pixel grid has exactly one pixel. -/
instance : Subsingleton (Pix 0 0) :=
  ⟨fun a b => by
    obtain ⟨a1, a2⟩ := a
    obtain ⟨b1, b2⟩ := b
    rw [Fin.fin_one_eq_zero a1, Fin.fin_one_eq_zero a2,
      Fin.fin_one_eq_zero b1, Fin.fin_one_eq_zero b2]⟩

/-- Modelled from the spec: the clamp threshold ε ≈ 1e-5 used by the
UnaryAdapter before taking `-log`. -/
noncomputable def epsClamp : ℝ := 1e-5

/-- Modelled from the spec: clamp a probability value to `[ε, 1]`. -/
noncomputable def clampProb (x : ℝ) : ℝ := max epsClamp (min x 1)

lemma epsClamp_pos : (0 : ℝ) < epsClamp := by norm_num [epsClamp]

lemma epsClamp_le_clampProb (x : ℝ) : epsClamp ≤ clampProb x := le_max_left _ _

lemma clampProb_pos (x : ℝ) : 0 < clampProb x :=
  lt_of_lt_of_le epsClamp_pos (epsClamp_le_clampProb x)

lemma clampProb_le_one (x : ℝ) : clampProb x ≤ 1 := by
  unfold clampProb
  exact max_le (by norm_num [epsClamp]) (min_le_right x 1)

lemma clampProb_mono {a b : ℝ} (h : a ≤ b) : clampProb a ≤ clampProb b :=
  max_le_max le_rfl (min_le_min h le_rfl)

/-- Modelled from the spec: the UnaryAdapter, missing from the visible
source (`libs/utils.DenseCRF` wraps an external engine).  Converts a
C×H×W probability map into per-pixel, per-class energies
`-log (clamp (probability, ε, 1))`. -/
noncomputable def toEnergy {C : ℕ} {ι : Type} (p : Fin (C + 1) → ι → ℝ) :
    Fin (C + 1) → ι → ℝ :=
  fun c i => -Real.log (clampProb (p c i))

/-- Modelled from the spec: per-pixel softmax over the class axis. -/
noncomputable def softmax {C : ℕ} (v : Fin (C + 1) → ℝ) : Fin (C + 1) → ℝ :=
  fun c => Real.exp (v c) / ∑ d, Real.exp (v d)

lemma sum_exp_pos {C : ℕ} (v : Fin (C + 1) → ℝ) :
    (0 : ℝ) < ∑ d, Real.exp (v d) :=
  Finset.sum_pos (fun d _ => Real.exp_pos (v d)) Finset.univ_nonempty

lemma softmax_sum_one {C : ℕ} (v : Fin (C + 1) → ℝ) : ∑ c, softmax v c = 1 := by
  unfold softmax
  rw [← Finset.sum_div, div_self (ne_of_gt (sum_exp_pos v))]

lemma softmax_nonneg {C : ℕ} (v : Fin (C + 1) → ℝ) (c : Fin (C + 1)) :
    0 ≤ softmax v c :=
  div_nonneg (le_of_lt (Real.exp_pos _)) (le_of_lt (sum_exp_pos v))

/-- Modelled from the spec: the FeatureSpace build for a `Spatial` kernel:
each pixel's feature vector is `(x/θ, y/θ)`. -/
noncomputable def buildSpatial {H W : ℕ} (θ : ℝ) : Pix H W → Fin 2 → ℝ :=
  fun pix d => if (d : ℕ) = 0 then (pix.1 : ℝ) / θ else (pix.2 : ℝ) / θ

/-- Modelled from the spec: the FeatureSpace build for a `Bilateral` kernel:
each pixel's feature vector is `(x/θxy, y/θxy, r/θrgb, g/θrgb, b/θrgb)`. -/
noncomputable def buildBilateral {H W : ℕ} (θxy θrgb : ℝ)
    (img : Pix H W → Fin 3 → ℝ) : Pix H W → Fin 5 → ℝ :=
  fun pix d =>
    if (d : ℕ) = 0 then (pix.1 : ℝ) / θxy
    else if (d : ℕ) = 1 then (pix.2 : ℝ) / θxy
    else if (d : ℕ) = 2 then img pix 0 / θrgb
    else if (d : ℕ) = 3 then img pix 1 / θrgb
    else img pix 2 / θrgb

/-- Modelled from the spec: the Gaussian pairwise weight
`exp (-‖f_i - f_j‖² / 2)` between two pixels' feature vectors. -/
noncomputable def gaussWeight {ι : Type} {k : ℕ} (f : ι → Fin k → ℝ)
    (i j : ι) : ℝ :=
  Real.exp (-(∑ d, (f i d - f j d) ^ 2) / 2)

lemma gaussWeight_pos {ι : Type} {k : ℕ} (f : ι → Fin k → ℝ) (i j : ι) :
    0 < gaussWeight f i j :=
  Real.exp_pos _

/-- Modelled from the spec: the ApproximateFiltering responsibility,
`M(i) = Σ_j exp (-‖f_i - f_j‖² / 2) · Q(j)` over all pixels `j` (one class
channel at a time).  The splat/blur/slice lattice is an implementation whose
correctness target is exactly this Gaussian-weighted sum, so the sum itself
is the model. -/
noncomputable def filterRaw {ι : Type} [Fintype ι] {k : ℕ}
    (f : ι → Fin k → ℝ) (Q : ι → ℝ) : ι → ℝ :=
  fun i => ∑ j, gaussWeight f i j * Q j

/-- Modelled from the spec: the normalization pass — the filter applied to
an all-ones belief field, whose values divide the filter output. -/
noncomputable def normFactor {ι : Type} [Fintype ι] {k : ℕ}
    (f : ι → Fin k → ℝ) : ι → ℝ :=
  filterRaw f (fun _ => 1)

/-- Modelled from the spec: ApproximateFiltering including its
self-normalization pass. -/
noncomputable def approximateFiltering {ι : Type} [Fintype ι] {k : ℕ}
    (f : ι → Fin k → ℝ) (Q : ι → ℝ) : ι → ℝ :=
  fun i => filterRaw f Q i / normFactor f i

/-- Modelled from the spec: the PairwiseKernelSet message — the weighted sum
of the two kernels' filtering outputs, per pixel and class. -/
noncomputable def pairwiseMessage {C : ℕ} {ι : Type} [Fintype ι] {k₁ k₂ : ℕ}
    (f₁ : ι → Fin k₁ → ℝ) (f₂ : ι → Fin k₂ → ℝ) (w₁ w₂ : ℝ)
    (Q : Fin (C + 1) → ι → ℝ) : Fin (C + 1) → ι → ℝ :=
  fun c i => w₁ * approximateFiltering f₁ (Q c) i +
    w₂ * approximateFiltering f₂ (Q c) i

/-- Modelled from the spec: MeanFieldSolver initialization,
`Q ← softmax (-EnergyMap)` per pixel. -/
noncomputable def initQ {C : ℕ} {ι : Type} (p : Fin (C + 1) → ι → ℝ) :
    Fin (C + 1) → ι → ℝ :=
  fun c i => softmax (fun d => -(toEnergy p d i)) c

/-- Modelled from the spec: one synchronous mean-field iteration — compute
the pairwise message from the whole current belief array, combine
`-EnergyMap + message`, and renormalize with a per-pixel softmax. -/
noncomputable def mfStep {C : ℕ} {ι : Type} [Fintype ι] {k₁ k₂ : ℕ}
    (f₁ : ι → Fin k₁ → ℝ) (f₂ : ι → Fin k₂ → ℝ) (w₁ w₂ : ℝ)
    (p : Fin (C + 1) → ι → ℝ) (Q : Fin (C + 1) → ι → ℝ) :
    Fin (C + 1) → ι → ℝ :=
  fun c i =>
    softmax (fun d => -(toEnergy p d i) + pairwiseMessage f₁ f₂ w₁ w₂ Q d i) c

/-- Modelled from the spec: the MeanFieldSolver — initialize from the unary
energies, then iterate exactly `T` times with no convergence check. -/
noncomputable def solveQ {C : ℕ} {ι : Type} [Fintype ι] {k₁ k₂ : ℕ}
    (f₁ : ι → Fin k₁ → ℝ) (f₂ : ι → Fin k₂ → ℝ) (w₁ w₂ : ℝ)
    (p : Fin (C + 1) → ι → ℝ) (T : ℕ) : Fin (C + 1) → ι → ℝ :=
  (mfStep f₁ f₂ w₁ w₂ p)^[T] (initQ p)

/-- The CRF configuration bundle, with the fields and order of
`DenseCRF.__init__` as called from `setup_postprocessor` in `demo.py`. -/
structure CRFConfig where
  iter_max : ℤ
  pos_xy_std : ℝ
  pos_w : ℝ
  bi_xy_std : ℝ
  bi_rgb_std : ℝ
  bi_w : ℝ

/-- Modelled from the spec: the configuration-validity predicate — all
bandwidths and weights strictly positive and `iter_max` nonnegative. -/
def validConfig (cfg : CRFConfig) : Prop :=
  0 < cfg.pos_xy_std ∧ 0 < cfg.pos_w ∧ 0 < cfg.bi_xy_std ∧
    0 < cfg.bi_rgb_std ∧ 0 < cfg.bi_w ∧ 0 ≤ cfg.iter_max

/-- Modelled from the spec: the error taxonomy.  Shape errors are ruled out
here by typing, so only `configError` is reachable. -/
inductive CRFError where
  | shapeError : CRFError
  | configError : CRFError
deriving DecidableEq

/-- Label extraction at the boundary: per-pixel argmax of the belief array
over the class axis (`np.argmax(probs, axis=0)`). -/
noncomputable def labelExtract {C : ℕ} {ι : Type} (Q : Fin (C + 1) → ι → ℝ) :
    ι → Fin (C + 1) :=
  fun i => npArgmax (fun c => Q c i)

/-- Modelled from the spec: the whole solver pipeline on a pixel grid — the
spatial and bilateral kernels are built from the image and the
configuration's bandwidths, and the mean-field solver runs `T` iterations. -/
noncomputable def solveQBeliefs {C H W : ℕ} (img : Pix H W → Fin 3 → ℝ)
    (p : Fin (C + 1) → Pix H W → ℝ) (cfg : CRFConfig) (T : ℕ) :
    Fin (C + 1) → Pix H W → ℝ :=
  solveQ (buildSpatial cfg.pos_xy_std)
    (buildBilateral cfg.bi_xy_std cfg.bi_rgb_std img)
    cfg.pos_w cfg.bi_w p T

/-- Modelled from the spec: solver run followed by label extraction. -/
noncomputable def solveLabels {C H W : ℕ} (img : Pix H W → Fin 3 → ℝ)
    (p : Fin (C + 1) → Pix H W → ℝ) (cfg : CRFConfig) (T : ℕ) :
    Pix H W → Fin (C + 1) :=
  labelExtract (solveQBeliefs img p cfg T)

open Classical

/-- Modelled from the spec: the single entry point
`refine(image, probabilityMap, config) → labelMap`; configuration validation
happens at construction, before any iteration, and an invalid configuration
yields `ConfigError` with no result. -/
noncomputable def refine {C H W : ℕ} (img : Pix H W → Fin 3 → ℝ)
    (p : Fin (C + 1) → Pix H W → ℝ) (cfg : CRFConfig) :
    Except CRFError (Pix H W → Fin (C + 1)) :=
  if validConfig cfg then
    Except.ok (solveLabels img p cfg cfg.iter_max.toNat)
  else
    Except.error CRFError.configError

/-- Modelled from the spec: validity of a probability-map input — entries
nonnegative and each pixel's class vector summing to 1. -/
def validProbMap {C : ℕ} {ι : Type} [Fintype ι] (p : Fin (C + 1) → ι → ℝ) :
    Prop :=
  (∀ c i, 0 ≤ p c i) ∧ ∀ i, ∑ c, p c i = 1

/-- The `F.softmax(logits, dim=1)` step of `inference` in `demo.py`:
per-pixel softmax of the (interpolated) logits over the class axis. -/
noncomputable def softmaxProbs {C H W : ℕ}
    (logits : Fin (C + 1) → Fin H → Fin W → ℝ) :
    Fin (C + 1) → Fin H → Fin W → ℝ :=
  fun c h w => softmax (fun d => logits d h w) c

/-- The probability map `inference` in `demo.py` finally takes the argmax
of: the softmax output, routed through the CRF post-processor exactly when
both a post-processor and a raw image were supplied
(`if postprocessor and raw_image is not None`). -/
noncomputable def finalProbs {C H W : ℕ}
    (logits : Fin (C + 1) → Fin H → Fin W → ℝ)
    (rawImage : Option (Fin H → Fin W → Fin 3 → ℝ))
    (postprocessor : Option ((Fin H → Fin W → Fin 3 → ℝ) →
      (Fin (C + 1) → Fin H → Fin W → ℝ) → Fin (C + 1) → Fin H → Fin W → ℝ)) :
    Fin (C + 1) → Fin H → Fin W → ℝ :=
  match postprocessor, rawImage with
  | some pp, some ri => pp ri (softmaxProbs logits)
  | _, _ => softmaxProbs logits

/-- The `inference` function of `demo.py` from the softmax on: optional CRF
refinement, then `np.argmax(probs, axis=0)`. -/
noncomputable def inference {C H W : ℕ}
    (logits : Fin (C + 1) → Fin H → Fin W → ℝ)
    (rawImage : Option (Fin H → Fin W → Fin 3 → ℝ))
    (postprocessor : Option ((Fin H → Fin W → Fin 3 → ℝ) →
      (Fin (C + 1) → Fin H → Fin W → ℝ) → Fin (C + 1) → Fin H → Fin W → ℝ)) :
    Fin H → Fin W → Fin (C + 1) :=
  fun h w => npArgmax (fun c => finalProbs logits rawImage postprocessor c h w)

/-! ### Helper lemmas -/

lemma exp_neg_toEnergy {C : ℕ} {ι : Type} (p : Fin (C + 1) → ι → ℝ)
    (c : Fin (C + 1)) (i : ι) :
    Real.exp (-(toEnergy p c i)) = clampProb (p c i) := by
  unfold toEnergy
  rw [neg_neg, Real.exp_log (clampProb_pos _)]

/-- Initialization in closed form: the clamped probabilities renormalized. -/
lemma initQ_eq {C : ℕ} {ι : Type} (p : Fin (C + 1) → ι → ℝ)
    (c : Fin (C + 1)) (i : ι) :
    initQ p c i = clampProb (p c i) / ∑ d, clampProb (p d i) := by
  unfold initQ softmax
  rw [exp_neg_toEnergy]
  congr 1
  exact Finset.sum_congr rfl (fun d _ => exp_neg_toEnergy p d i)

lemma sum_clampProb_pos {C : ℕ} {ι : Type} (p : Fin (C + 1) → ι → ℝ) (i : ι) :
    (0 : ℝ) < ∑ d, clampProb (p d i) :=
  Finset.sum_pos (fun d _ => clampProb_pos (p d i)) Finset.univ_nonempty

lemma normFactor_pos {ι : Type} [Fintype ι] [Nonempty ι] {k : ℕ}
    (f : ι → Fin k → ℝ) (i : ι) : 0 < normFactor f i := by
  unfold normFactor filterRaw
  refine Finset.sum_pos (fun j _ => ?_) Finset.univ_nonempty
  rw [mul_one]
  exact gaussWeight_pos f i j

/-- The normalized filter fixes every constant field. -/
lemma approximateFiltering_const {ι : Type} [Fintype ι] [Nonempty ι] {k : ℕ}
    (f : ι → Fin k → ℝ) (u : ℝ) :
    approximateFiltering f (fun _ => u) = fun _ => u := by
  funext i
  unfold approximateFiltering
  have h1 : filterRaw f (fun _ => u) i = normFactor f i * u := by
    unfold normFactor filterRaw
    rw [Finset.sum_mul]
    exact Finset.sum_congr rfl (fun j _ => by ring)
  rw [h1, mul_comm, mul_div_assoc, div_self (ne_of_gt (normFactor_pos f i)),
    mul_one]

/-- Over a one-point pixel set the normalized filter is the identity. -/
lemma approximateFiltering_subsingleton {ι : Type} [Fintype ι] [Subsingleton ι]
    {k : ℕ} (f : ι → Fin k → ℝ) (Q : ι → ℝ) :
    approximateFiltering f Q = Q := by
  funext i
  unfold approximateFiltering filterRaw normFactor
  have hself : gaussWeight f i i = 1 := by
    unfold gaussWeight
    simp [sub_self]
  have huniv : ∀ g : ι → ℝ, ∑ j, g j = g i := fun g =>
    Fintype.sum_subsingleton g i
  rw [huniv fun j => gaussWeight f i j * Q j]
  rw [show filterRaw f (fun _ => 1) i = gaussWeight f i i * 1 from
    huniv fun j => gaussWeight f i j * 1]
  rw [hself, one_mul, one_mul, div_one]

lemma pairwiseMessage_zero {C : ℕ} {ι : Type} [Fintype ι] {k₁ k₂ : ℕ}
    (f₁ : ι → Fin k₁ → ℝ) (f₂ : ι → Fin k₂ → ℝ)
    (Q : Fin (C + 1) → ι → ℝ) (c : Fin (C + 1)) (i : ι) :
    pairwiseMessage f₁ f₂ 0 0 Q c i = 0 := by
  unfold pairwiseMessage
  ring

/-- With both kernel weights zero one mean-field step lands back on the
unary-only initialization, whatever the current belief array is. -/
lemma mfStep_zero {C : ℕ} {ι : Type} [Fintype ι] {k₁ k₂ : ℕ}
    (f₁ : ι → Fin k₁ → ℝ) (f₂ : ι → Fin k₂ → ℝ)
    (p Q : Fin (C + 1) → ι → ℝ) :
    mfStep f₁ f₂ 0 0 p Q = initQ p := by
  funext c i
  unfold mfStep initQ
  have h : (fun d => -(toEnergy p d i) + pairwiseMessage f₁ f₂ 0 0 Q d i) =
      fun d => -(toEnergy p d i) := by
    funext d
    rw [pairwiseMessage_zero, add_zero]
  rw [h]

lemma solveQ_zero_weights {C : ℕ} {ι : Type} [Fintype ι] {k₁ k₂ : ℕ}
    (f₁ : ι → Fin k₁ → ℝ) (f₂ : ι → Fin k₂ → ℝ)
    (p : Fin (C + 1) → ι → ℝ) (T : ℕ) :
    solveQ f₁ f₂ 0 0 p T = initQ p := by
  induction T with
  | zero => rfl
  | succ t ih =>
    unfold solveQ at ih ⊢
    rw [Function.iterate_succ_apply', ih, mfStep_zero]

/-- After any number of iterations the belief array is a per-pixel softmax,
so each pixel's class vector sums to 1 and is nonnegative. -/
lemma solveQ_sum_one {C : ℕ} {ι : Type} [Fintype ι] {k₁ k₂ : ℕ}
    (f₁ : ι → Fin k₁ → ℝ) (f₂ : ι → Fin k₂ → ℝ) (w₁ w₂ : ℝ)
    (p : Fin (C + 1) → ι → ℝ) (T : ℕ) (i : ι) :
    ∑ c, solveQ f₁ f₂ w₁ w₂ p T c i = 1 := by
  cases T with
  | zero =>
    show ∑ c, initQ p c i = 1
    simp only [initQ]
    exact softmax_sum_one _
  | succ t =>
    unfold solveQ
    rw [Function.iterate_succ_apply']
    simp only [mfStep]
    exact softmax_sum_one _

lemma solveQ_nonneg {C : ℕ} {ι : Type} [Fintype ι] {k₁ k₂ : ℕ}
    (f₁ : ι → Fin k₁ → ℝ) (f₂ : ι → Fin k₂ → ℝ) (w₁ w₂ : ℝ)
    (p : Fin (C + 1) → ι → ℝ) (T : ℕ) (c : Fin (C + 1)) (i : ι) :
    0 ≤ solveQ f₁ f₂ w₁ w₂ p T c i := by
  cases T with
  | zero =>
    show 0 ≤ initQ p c i
    simp only [initQ]
    exact softmax_nonneg _ c
  | succ t =>
    unfold solveQ
    rw [Function.iterate_succ_apply']
    simp only [mfStep]
    exact softmax_nonneg _ c

/-- When some class probability at a pixel exceeds the clamp threshold,
label extraction of the unary-only initialization agrees with the raw
per-pixel argmax. -/
lemma npArgmax_initQ_eq {C : ℕ} {ι : Type} [Fintype ι]
    (p : Fin (C + 1) → ι → ℝ) (hp : validProbMap p) (i : ι)
    (hmax : ∃ c, epsClamp < p c i) :
    npArgmax (fun c => initQ p c i) = npArgmax (fun c => p c i) := by
  obtain ⟨c₀, hc₀⟩ := hmax
  have hjε : epsClamp < p (npArgmax fun c => p c i) i :=
    lt_of_lt_of_le hc₀ (le_f_npArgmax (fun c => p c i) c₀)
  have hj1 : p (npArgmax fun c => p c i) i ≤ 1 := by
    obtain ⟨hnn, hsum⟩ := hp
    calc p (npArgmax fun c => p c i) i
        ≤ ∑ c, p c i :=
          Finset.single_le_sum (fun c _ => hnn c i) (Finset.mem_univ _)
      _ = 1 := hsum i
  have hclj : clampProb (p (npArgmax fun c => p c i) i) =
      p (npArgmax fun c => p c i) i := by
    unfold clampProb
    rw [min_eq_left hj1, max_eq_right (le_of_lt hjε)]
  have hZ := sum_clampProb_pos p i
  apply npArgmax_eq
  · intro c
    have h1 : p c i ≤ p (npArgmax fun c => p c i) i :=
      le_f_npArgmax (fun c => p c i) c
    rw [initQ_eq, initQ_eq]
    exact (div_le_div_iff_of_pos_right hZ).mpr (clampProb_mono h1)
  · intro c hc
    have h2 : p c i < p (npArgmax fun c => p c i) i :=
      lt_f_of_lt_npArgmax (fun c => p c i) c hc
    rw [initQ_eq, initQ_eq]
    apply (div_lt_div_iff_of_pos_right hZ).mpr
    rw [hclj]
    calc clampProb (p c i)
        ≤ max epsClamp (p c i) := max_le_max le_rfl (min_le_left _ _)
      _ < p (npArgmax fun c => p c i) i := max_lt hjε h2

/-! ### Claim theorems -/

/-- **C1.** For every input image, probability map (C ≥ 1, H, W ≥ 1 by
typing) and every iteration count, the belief array `Q` held by the
mean-field solver is a valid per-pixel probability distribution: after
initialization (`T = 0`) and after every iteration (`T = 1, 2, …`) each
pixel's class beliefs are nonnegative and sum to 1. -/
theorem belief_always_distribution {C H W : ℕ} (img : Pix H W → Fin 3 → ℝ)
    (p : Fin (C + 1) → Pix H W → ℝ) (cfg : CRFConfig) (T : ℕ) (i : Pix H W) :
    (∑ c, solveQBeliefs img p cfg T c i = 1) ∧
      ∀ c, 0 ≤ solveQBeliefs img p cfg T c i := by
  constructor
  · exact solveQ_sum_one _ _ _ _ p T i
  · exact fun c => solveQ_nonneg _ _ _ _ p T c i

/-- **C4.** For every image and kernel configuration, the normalized
approximate filter (spatial or bilateral kernel) maps every uniform belief
field to itself: the uniform belief is a fixed point of the filter. -/
theorem uniform_fixed_point {H W : ℕ} (θ θxy θrgb : ℝ)
    (img : Pix H W → Fin 3 → ℝ) (u : ℝ) :
    approximateFiltering (buildSpatial θ) (fun _ => u) =
        (fun _ : Pix H W => u) ∧
      approximateFiltering (buildBilateral θxy θrgb img) (fun _ => u) =
        (fun _ : Pix H W => u) :=
  ⟨approximateFiltering_const _ u, approximateFiltering_const _ u⟩

/-- **C5.** With both pairwise weights zero the solver's output label map
after any number of iterations equals the `iter_max = 0` output: the
unary-only optimum is a fixed point of the iteration. -/
theorem zero_weights_eq_iter0 {C H W : ℕ} (img : Pix H W → Fin 3 → ℝ)
    (p : Fin (C + 1) → Pix H W → ℝ) (cfg : CRFConfig) (T : ℕ)
    (hpos : cfg.pos_w = 0) (hbi : cfg.bi_w = 0) :
    solveLabels img p cfg T = solveLabels img p cfg 0 := by
  unfold solveLabels solveQBeliefs
  rw [hpos, hbi, solveQ_zero_weights, solveQ_zero_weights]

/-- Witness for C5 at a concrete input: a 2-class, 1×1-pixel map with
`pos_w = bi_w = 0` and 7 iterations gives the same labels as 0 iterations. -/
theorem zero_weights_eq_iter0_witness :
    solveLabels (fun (_ : Pix 0 0) (_ : Fin 3) => (0 : ℝ))
        (fun (_ : Fin (1 + 1)) (_ : Pix 0 0) => (1 : ℝ) / 2)
        (CRFConfig.mk 7 1 0 1 1 0) 7 =
      solveLabels (fun (_ : Pix 0 0) (_ : Fin 3) => (0 : ℝ))
        (fun (_ : Fin (1 + 1)) (_ : Pix 0 0) => (1 : ℝ) / 2)
        (CRFConfig.mk 7 1 0 1 1 0) 0 :=
  zero_weights_eq_iter0 _ _ _ 7 rfl rfl

/-- **C2 (amended).** With `iter_max = 0`, a valid configuration, a valid
probability map, and — as the clamp forces — at each pixel some class
probability strictly above the clamp threshold ε (automatic when
(C+1)·ε < 1), `refine` accepts the input and returns exactly the per-pixel
argmax of the raw input probability map. -/
theorem iter0_labels_eq_raw_argmax {C H W : ℕ} (img : Pix H W → Fin 3 → ℝ)
    (p : Fin (C + 1) → Pix H W → ℝ) (cfg : CRFConfig)
    (hv : validConfig cfg) (h0 : cfg.iter_max = 0) (hp : validProbMap p)
    (hmax : ∀ i, ∃ c, epsClamp < p c i) :
    refine img p cfg = Except.ok fun i => npArgmax fun c => p c i := by
  unfold refine
  rw [if_pos hv]
  congr 1
  funext i
  unfold solveLabels labelExtract solveQBeliefs
  rw [h0]
  show npArgmax (fun c => initQ p c i) = npArgmax fun c => p c i
  exact npArgmax_initQ_eq p hp i (hmax i)

/-- Witness for the amended C2 at a concrete input: the uniform two-class
map on a single pixel, `iter_max = 0`. -/
theorem iter0_labels_eq_raw_argmax_witness :
    refine (fun (_ : Pix 0 0) (_ : Fin 3) => (0 : ℝ))
        (fun (_ : Fin (1 + 1)) (_ : Pix 0 0) => (1 : ℝ) / 2)
        (CRFConfig.mk 0 1 1 1 1 1) =
      Except.ok fun _ =>
        npArgmax fun _ : Fin (1 + 1) => (1 : ℝ) / 2 := by
  apply iter0_labels_eq_raw_argmax
  · refine ⟨?_, ?_, ?_, ?_, ?_, ?_⟩ <;> norm_num
  · rfl
  · constructor
    · intro c i
      norm_num
    · intro i
      rw [Fin.sum_univ_two]
      norm_num
  · intro i
    refine ⟨1, ?_⟩
    norm_num [epsClamp]

/-- The probability map of the C2 counterexample: 200000 classes on a single
pixel, probabilities 4×10⁻⁶ (class 0), 6×10⁻⁶ (class 1) and 5×10⁻⁶
(all others) — a valid distribution in which every entry is at or below the
clamp threshold ε = 10⁻⁵. -/
noncomputable def cexProbMap : Fin (199999 + 1) → Pix 0 0 → ℝ :=
  fun c _ =>
    if (c : ℕ) = 0 then 4e-6 else if (c : ℕ) = 1 then 6e-6 else 5e-6

/-- The configuration of the C2 counterexample: `iter_max = 0`, all
bandwidths and weights 1 (valid). -/
noncomputable def cexConfig : CRFConfig := CRFConfig.mk 0 1 1 1 1 1

/-- The (irrelevant) image of the C2 counterexample. -/
noncomputable def cexImage : Pix 0 0 → Fin 3 → ℝ := fun _ _ => 0

lemma cexProbMap_valid : validProbMap cexProbMap := by
  constructor
  · intro c i
    unfold cexProbMap
    by_cases h0 : (c : ℕ) = 0
    · rw [if_pos h0]; norm_num
    · rw [if_neg h0]
      by_cases h1 : (c : ℕ) = 1
      · rw [if_pos h1]; norm_num
      · rw [if_neg h1]; norm_num
  · intro i
    have hdec : ∀ c : Fin (199999 + 1), cexProbMap c i =
        5e-6 + ((if (c : ℕ) = 0 then (-1e-6 : ℝ) else 0) +
          (if (c : ℕ) = 1 then (1e-6 : ℝ) else 0)) := by
      intro c
      unfold cexProbMap
      by_cases h0 : (c : ℕ) = 0
      · have h1 : ¬(c : ℕ) = 1 := by rw [h0]; norm_num
        rw [if_pos h0, if_pos h0, if_neg h1]
        norm_num
      · by_cases h1 : (c : ℕ) = 1
        · rw [if_neg h0, if_pos h1, if_neg h0, if_pos h1]
          norm_num
        · rw [if_neg h0, if_neg h1, if_neg h0, if_neg h1]
          norm_num
    rw [Finset.sum_congr rfl fun c _ => hdec c]
    rw [Finset.sum_add_distrib, Finset.sum_add_distrib, Finset.sum_const]
    have hs0 : ∑ c : Fin (199999 + 1),
        (if (c : ℕ) = 0 then (-1e-6 : ℝ) else 0) = -1e-6 := by
      rw [Finset.sum_eq_single (⟨0, by norm_num⟩ : Fin (199999 + 1))]
      · rfl
      · intro c _ hc
        rw [if_neg]
        intro h
        exact hc (Fin.ext h)
      · intro h
        exact absurd (Finset.mem_univ _) h
    have hs1 : ∑ c : Fin (199999 + 1),
        (if (c : ℕ) = 1 then (1e-6 : ℝ) else 0) = 1e-6 := by
      rw [Finset.sum_eq_single (⟨1, by norm_num⟩ : Fin (199999 + 1))]
      · rfl
      · intro c _ hc
        rw [if_neg]
        intro h
        exact hc (Fin.ext h)
      · intro h
        exact absurd (Finset.mem_univ _) h
    rw [hs0, hs1, Finset.card_univ, Fintype.card_fin, nsmul_eq_mul]
    norm_num

lemma cexConfig_valid : validConfig cexConfig := by
  refine ⟨?_, ?_, ?_, ?_, ?_, ?_⟩ <;> norm_num [cexConfig]

lemma cexProbMap_clamp (c : Fin (199999 + 1)) (i : Pix 0 0) :
    clampProb (cexProbMap c i) = epsClamp := by
  unfold cexProbMap clampProb epsClamp
  by_cases h0 : (c : ℕ) = 0
  · rw [if_pos h0, min_eq_left (by norm_num), max_eq_left (by norm_num)]
  · rw [if_neg h0]
    by_cases h1 : (c : ℕ) = 1
    · rw [if_pos h1, min_eq_left (by norm_num), max_eq_left (by norm_num)]
    · rw [if_neg h1, min_eq_left (by norm_num), max_eq_left (by norm_num)]

/-- **C2 (counterexample).** A valid 200000-class probability map on a
single pixel where every class probability is at or below the clamp
threshold ε: with `iter_max = 0` and a valid configuration, `refine` labels
the pixel 0 (all clamped beliefs tie, lowest index wins), while the raw
per-pixel argmax of the input probability map is class 1. -/
theorem iter0_raw_argmax_counterexample :
    validProbMap cexProbMap ∧ validConfig cexConfig ∧
      cexConfig.iter_max = 0 ∧
      refine cexImage cexProbMap cexConfig =
        Except.ok (fun _ => (⟨0, by norm_num⟩ : Fin (199999 + 1))) ∧
      npArgmax (fun c => cexProbMap c ((0 : Fin 1), (0 : Fin 1))) =
        ⟨1, by norm_num⟩ ∧
      refine cexImage cexProbMap cexConfig ≠
        Except.ok fun i => npArgmax fun c => cexProbMap c i := by
  have hargmax1 : ∀ i : Pix 0 0,
      npArgmax (fun c => cexProbMap c i) = ⟨1, by norm_num⟩ := by
    intro i
    apply npArgmax_eq
    · intro c
      show cexProbMap c i ≤ cexProbMap ⟨1, by norm_num⟩ i
      unfold cexProbMap
      by_cases h0 : (c : ℕ) = 0
      · rw [if_pos h0]; norm_num
      · rw [if_neg h0]
        by_cases h1 : (c : ℕ) = 1
        · rw [if_pos h1]; norm_num
        · rw [if_neg h1]; norm_num
    · intro c hc
      have h0 : (c : ℕ) = 0 := Nat.lt_one_iff.mp (Fin.lt_def.mp hc)
      show cexProbMap c i < cexProbMap ⟨1, by norm_num⟩ i
      unfold cexProbMap
      rw [if_pos h0]
      norm_num
  have hrefine : refine cexImage cexProbMap cexConfig =
      Except.ok (fun _ => (⟨0, by norm_num⟩ : Fin (199999 + 1))) := by
    unfold refine
    rw [if_pos cexConfig_valid]
    congr 1
    funext i
    unfold solveLabels labelExtract solveQBeliefs
    show npArgmax (fun c => initQ cexProbMap c i) = ⟨0, by norm_num⟩
    apply npArgmax_eq
    · intro c
      rw [initQ_eq, initQ_eq]
      simp only [cexProbMap_clamp]
      exact le_rfl
    · intro c hc
      exact absurd (Fin.lt_def.mp hc) (Nat.not_lt_zero _)
  refine ⟨cexProbMap_valid, cexConfig_valid, rfl, hrefine, hargmax1 _, ?_⟩
  rw [hrefine]
  intro h
  have h2 := congrFun ((Except.ok.injEq _ _).mp h) ((0 : Fin 1), (0 : Fin 1))
  rw [hargmax1] at h2
  have h3 := congrArg Fin.val h2
  norm_num at h3

/-- **C3.** The externally consumed output of `inference` (`demo.py`,
`labelmap = np.argmax(probs, axis=0)`) is the per-pixel argmax over the
class axis of the final probability array: every label lies in `[0, C]`,
the labelled class dominates every class's value, and every class index
strictly below the label is strictly dominated — ties are broken by the
lowest class index. -/
theorem label_extraction_argmax {C H W : ℕ}
    (logits : Fin (C + 1) → Fin H → Fin W → ℝ)
    (rawImage : Option (Fin H → Fin W → Fin 3 → ℝ))
    (postprocessor : Option ((Fin H → Fin W → Fin 3 → ℝ) →
      (Fin (C + 1) → Fin H → Fin W → ℝ) → Fin (C + 1) → Fin H → Fin W → ℝ))
    (h : Fin H) (w : Fin W) :
    inference logits rawImage postprocessor h w =
        npArgmax (fun c => finalProbs logits rawImage postprocessor c h w) ∧
      ((inference logits rawImage postprocessor h w : ℕ) ≤ C) ∧
      (∀ c, finalProbs logits rawImage postprocessor c h w ≤
        finalProbs logits rawImage postprocessor
          (inference logits rawImage postprocessor h w) h w) ∧
      ∀ c, c < inference logits rawImage postprocessor h w →
        finalProbs logits rawImage postprocessor c h w <
          finalProbs logits rawImage postprocessor
            (inference logits rawImage postprocessor h w) h w := by
  refine ⟨rfl, ?_, ?_, ?_⟩
  · exact Nat.lt_succ_iff.mp (inference logits rawImage postprocessor h w).isLt
  · intro c
    exact le_f_npArgmax (fun c => finalProbs logits rawImage postprocessor c h w) c
  · intro c hc
    exact lt_f_of_lt_npArgmax
      (fun c => finalProbs logits rawImage postprocessor c h w) c hc

/-- **C6.** Any configuration with a bandwidth or weight ≤ 0 or a negative
`iter_max` is rejected at construction with `ConfigError`: `refine` returns
the error and produces no label map, before any iteration runs. -/
theorem invalid_config_rejected {C H W : ℕ} (img : Pix H W → Fin 3 → ℝ)
    (p : Fin (C + 1) → Pix H W → ℝ) (cfg : CRFConfig)
    (hbad : cfg.pos_xy_std ≤ 0 ∨ cfg.pos_w ≤ 0 ∨ cfg.bi_xy_std ≤ 0 ∨
      cfg.bi_rgb_std ≤ 0 ∨ cfg.bi_w ≤ 0 ∨ cfg.iter_max < 0) :
    refine img p cfg = Except.error CRFError.configError := by
  unfold refine
  rw [if_neg]
  intro hv
  obtain ⟨h1, h2, h3, h4, h5, h6⟩ := hv
  rcases hbad with hb | hb | hb | hb | hb | hb
  · exact absurd h1 (not_lt.mpr hb)
  · exact absurd h2 (not_lt.mpr hb)
  · exact absurd h3 (not_lt.mpr hb)
  · exact absurd h4 (not_lt.mpr hb)
  · exact absurd h5 (not_lt.mpr hb)
  · exact absurd h6 (not_le.mpr hb)

/-- Witness for C6 at a concrete input: `pos_w = -1` is rejected. -/
theorem invalid_config_rejected_witness :
    refine (fun (_ : Pix 0 0) (_ : Fin 3) => (0 : ℝ))
        (fun (_ : Fin (0 + 1)) (_ : Pix 0 0) => (1 : ℝ))
        (CRFConfig.mk 10 1 (-1) 1 1 1) = Except.error CRFError.configError :=
  invalid_config_rejected _ _ _ (Or.inr (Or.inl (by norm_num)))

/-- **C7.** `toEnergy` computes `-log (clamp (probability, ε, 1))` with
ε = 10⁻⁵; every energy value lies in the finite band `[0, -log ε]`, and a
zero probability entry (as in an all-zero row) is absorbed silently by the
clamp, giving the finite energy `-log ε` rather than an error. -/
theorem toEnergy_clamped_log {C H W : ℕ} (p : Fin (C + 1) → Pix H W → ℝ)
    (c : Fin (C + 1)) (i : Pix H W) :
    toEnergy p c i = -Real.log (clampProb (p c i)) ∧
      epsClamp = 1e-5 ∧
      0 ≤ toEnergy p c i ∧
      toEnergy p c i ≤ -Real.log epsClamp ∧
      (p c i = 0 → toEnergy p c i = -Real.log epsClamp) := by
  have hdef : toEnergy p c i = -Real.log (clampProb (p c i)) := rfl
  refine ⟨rfl, rfl, ?_, ?_, ?_⟩
  · rw [hdef]
    exact neg_nonneg.mpr
      (Real.log_nonpos (le_of_lt (clampProb_pos _)) (clampProb_le_one _))
  · rw [hdef]
    apply neg_le_neg
    exact (Real.log_le_log_iff epsClamp_pos (clampProb_pos _)).mpr
      (epsClamp_le_clampProb _)
  · intro h0
    have hc : clampProb (p c i) = epsClamp := by
      unfold clampProb
      rw [h0, min_eq_left (by norm_num), max_eq_left (le_of_lt epsClamp_pos)]
    rw [hdef, hc]

/-- **C8.** `refine` is a deterministic function of the image, the
probability map and the configuration: two runs on identical inputs return
identical outputs. -/
theorem refine_deterministic {C H W : ℕ}
    (img img' : Pix H W → Fin 3 → ℝ) (p p' : Fin (C + 1) → Pix H W → ℝ)
    (cfg cfg' : CRFConfig) (h1 : img = img') (h2 : p = p')
    (h3 : cfg = cfg') : refine img p cfg = refine img' p' cfg' := by
  rw [h1, h2, h3]

/-- Witness for C8 at a concrete input. -/
theorem refine_deterministic_witness :
    refine (fun (_ : Pix 0 0) (_ : Fin 3) => (0 : ℝ))
        (fun (_ : Fin (0 + 1)) (_ : Pix 0 0) => (1 : ℝ))
        (CRFConfig.mk 10 3 3 80 13 10) =
      refine (fun (_ : Pix 0 0) (_ : Fin 3) => (0 : ℝ))
        (fun (_ : Fin (0 + 1)) (_ : Pix 0 0) => (1 : ℝ))
        (CRFConfig.mk 10 3 3 80 13 10) :=
  refine_deterministic _ _ _ _ _ _ rfl rfl rfl

/-- **C9.** On a single-pixel image (`H = W = 1`) with a valid
configuration, `refine` completes and returns a label map, and feature
filtering over the single point is a no-op pass-through for every feature
map and belief field. -/
theorem single_pixel_safe {C : ℕ} (img : Pix 0 0 → Fin 3 → ℝ)
    (p : Fin (C + 1) → Pix 0 0 → ℝ) (cfg : CRFConfig)
    (hv : validConfig cfg) :
    (∃ L, refine img p cfg = Except.ok L) ∧
      ∀ (k : ℕ) (f : Pix 0 0 → Fin k → ℝ) (Q : Pix 0 0 → ℝ),
        approximateFiltering f Q = Q := by
  constructor
  · refine ⟨solveLabels img p cfg cfg.iter_max.toNat, ?_⟩
    unfold refine
    rw [if_pos hv]
  · intro k f Q
    exact approximateFiltering_subsingleton f Q

/-- Witness for C9 at a concrete input. -/
theorem single_pixel_safe_witness :
    (∃ L, refine (fun (_ : Pix 0 0) (_ : Fin 3) => (0 : ℝ))
        (fun (_ : Fin (1 + 1)) (_ : Pix 0 0) => (1 : ℝ) / 2)
        (CRFConfig.mk 10 3 3 80 13 10) = Except.ok L) ∧
      ∀ (k : ℕ) (f : Pix 0 0 → Fin k → ℝ) (Q : Pix 0 0 → ℝ),
        approximateFiltering f Q = Q :=
  single_pixel_safe _ _ _ (by refine ⟨?_, ?_, ?_, ?_, ?_, ?_⟩ <;> norm_num)

/-- **C10.** In the harness's `inference`, whenever the post-processor or
the raw image is absent the CRF step is skipped and the returned label map
is exactly the per-pixel argmax of the unrefined softmax probabilities;
when both are present the post-processor is handed exactly the softmax
output; and that softmax output satisfies the per-pixel sum-to-1
precondition of a probability map. -/
theorem inference_skip_crf {C H W : ℕ}
    (logits : Fin (C + 1) → Fin H → Fin W → ℝ)
    (rawImage : Option (Fin H → Fin W → Fin 3 → ℝ))
    (postprocessor : Option ((Fin H → Fin W → Fin 3 → ℝ) →
      (Fin (C + 1) → Fin H → Fin W → ℝ) → Fin (C + 1) → Fin H → Fin W → ℝ)) :
    ((postprocessor = none ∨ rawImage = none) →
        inference logits rawImage postprocessor =
          fun h w => npArgmax fun c => softmaxProbs logits c h w) ∧
      (∀ pp ri, postprocessor = some pp → rawImage = some ri →
        finalProbs logits rawImage postprocessor =
          pp ri (softmaxProbs logits)) ∧
      ∀ h w, ∑ c, softmaxProbs logits c h w = 1 := by
  refine ⟨?_, ?_, ?_⟩
  · intro hskip
    have hfp : finalProbs logits rawImage postprocessor =
        softmaxProbs logits := by
      unfold finalProbs
      rcases hskip with h | h
      · rw [h]
      · rw [h]
        cases postprocessor <;> rfl
    unfold inference
    rw [hfp]
  · intro pp ri hpp hri
    rw [show finalProbs logits rawImage postprocessor =
      finalProbs logits (some ri) (some pp) by rw [hpp, hri]]
    rfl
  · intro h w
    exact softmax_sum_one _

end DenseCRF
